import Mathlib

/-!
Shallow embedding of the return/NAV transformation core of
`qis/perfstats/returns.py` (QuantInvestStrats).

Numeric model: pandas/numpy float cells are modelled exactly by `Val`, a
rational number extended with the IEEE special values NaN and signed
infinity.  The arithmetic on `Val` mirrors the IEEE special-value rules
that numpy follows (NaN propagates, `x / 0` is a signed infinity for
`x ≠ 0` and NaN for `x = 0`, `∞ - ∞ = NaN`, `∞ * 0 = NaN`).  Rounding of
finite values is not modelled: the claims under study are structural
(missing-value propagation, recurrences, aliasing), not about binary64
rounding.

A price/return series is a `List Val` (index positions stand for the
time stamps); a table is a `List (List Val)` of rows.  Calendar dates are
day numbers in `ℤ` where the code subtracts timestamps.
-/

/-- A float cell: NaN, a signed infinity (`inf true` is `+∞`,
`inf false` is `-∞`), or a finite rational. -/
inductive Val where
  | nan : Val
  | inf : Bool → Val
  | num : ℚ → Val
deriving DecidableEq, Repr

namespace Val

/-- `np.isnan`. -/
def isnan : Val → Bool
  | nan => true
  | _ => false

/-- `np.greater(x, 0.0)`: false on NaN, sign on infinities. -/
def gtZero : Val → Bool
  | nan => false
  | inf s => s
  | num q => decide (0 < q)

/-- IEEE negation. -/
def vneg : Val → Val
  | nan => nan
  | inf s => inf (!s)
  | num q => num (-q)

/-- IEEE addition: NaN propagates; `∞ + (-∞) = NaN`. -/
def vadd : Val → Val → Val
  | nan, _ => nan
  | _, nan => nan
  | inf s, inf t => if s = t then inf s else nan
  | inf s, num _ => inf s
  | num _, inf t => inf t
  | num a, num b => num (a + b)

/-- IEEE subtraction. -/
def vsub (a b : Val) : Val := vadd a (vneg b)

/-- IEEE multiplication: NaN propagates; `∞ * 0 = NaN`; signs combine. -/
def vmul : Val → Val → Val
  | nan, _ => nan
  | _, nan => nan
  | inf s, inf t => inf (s = t)
  | inf s, num q => if q = 0 then nan else inf (s = decide (0 < q))
  | num q, inf t => if q = 0 then nan else inf (t = decide (0 < q))
  | num a, num b => num (a * b)

/-- IEEE division as numpy computes it: NaN propagates; division of a
nonzero finite by zero is a signed infinity (numpy emits a warning, not
an exception); `0 / 0 = NaN`; `∞ / ∞ = NaN`; finite `/ ∞ = 0`. -/
def vdiv : Val → Val → Val
  | nan, _ => nan
  | _, nan => nan
  | inf _, inf _ => nan
  | inf s, num q => if 0 ≤ q then inf s else inf (!s)
  | num _, inf _ => num 0
  | num a, num b =>
      if b = 0 then (if a = 0 then nan else inf (decide (0 < a)))
      else num (a / b)

/-- `Series.clip(lower=l)`: NaN is left alone, finite values and `-∞`
are floored at `l`, `+∞` stays. -/
def clipLower (l : ℚ) : Val → Val
  | nan => nan
  | inf s => if s then inf true else num l
  | num q => num (max q l)

end Val

open Val

/-- `Series.shift(1)`: cell `i` becomes cell `i-1`, the first cell NaN. -/
def shift1 : List Val → List Val
  | [] => []
  | xs => Val.nan :: xs.dropLast

/-- Helper for forward fill, carrying the last valid value. -/
def ffillGo : Option Val → List Val → List Val
  | _, [] => []
  | last, x :: xs =>
      if x.isnan then
        match last with
        | some v => v :: ffillGo (some v) xs
        | none => Val.nan :: ffillGo none xs
      else x :: ffillGo (some x) xs

/-- `Series.fillna(method='ffill')`: NaN cells take the last preceding
non-NaN value; leading NaNs stay NaN. -/
def ffillList (xs : List Val) : List Val := ffillGo none xs

/-- `prices_at_freq` with `freq=None` (`returns.py:430-452`): forward
fill when `ffill_nans`, otherwise the input object is returned as is.
The frequency-resampling branch (`dff.df_asfreq`) is an external
utility and is not exercised by any claim. -/
def prices_at_freq (ffill_nans : Bool) (prices : List Val) : List Val :=
  if ffill_nans then ffillList prices else prices

/-- `ReturnTypes` (from `qis.perfstats.config`), the variants used by
`to_returns`. -/
inductive ReturnTypes where
  | RELATIVE
  | LOG
  | DIFFERENCE
  | LEVEL
  | LEVEL0
deriving DecidableEq, Repr

/-- The validity mask of `to_returns` (`returns.py:46-48`).  As written
in the source both conjuncts test `prices` itself — the shifted series
is never tested — so the mask depends only on the current cell: not NaN
and strictly greater than zero. -/
def indGood (prices : List Val) : List Bool :=
  prices.map (fun p => !p.isnan && p.gtZero)

/-- `set_zero_first` (`returns.py:492-497`): writes zero over the first
cell, in place, without a defensive copy. -/
def set_zero_first : List Val → List Val
  | [] => []
  | _ :: xs => Val.num 0 :: xs

/-- `drop_first_row` (`returns.py:484-489`). -/
def drop_first_row (returns : List Val) : List Val := returns.tail

/-- The return-formula dispatch of `to_returns` (`returns.py:50-64`),
after resampling.  `np.divide(..., where=ind_good)` leaves the cells
where the mask is false holding whatever the freshly allocated output
buffer contained; that unspecified content is the parameter `junk`
(every theorem below quantifies over it).  In the RELATIVE branch the
subsequent `.add(-1.0)` is applied to every cell, masked or not.  In the
LOG branch the inner `np.divide` carries no mask (numpy computes it
everywhere, warning rather than raising) and the mask sits on `np.log`;
the log of a positive rational is irrational, so the log kernel is the
abstract parameter `logFn` (no theorem inspects its values). -/
def returnsFormula (logFn : Val → Val) (junk : Val)
    (return_type : ReturnTypes) (is_log_returns : Bool)
    (prices : List Val) : List Val :=
  let shifted := shift1 prices
  if return_type = ReturnTypes.LOG || is_log_returns then
    List.zipWith (fun p s => if !p.isnan && p.gtZero then logFn (vdiv p s) else junk)
      prices shifted
  else
    match return_type with
    | ReturnTypes.RELATIVE =>
        List.zipWith
          (fun p s =>
            vadd (if !p.isnan && p.gtZero then vdiv p s else junk) (Val.num (-1)))
          prices shifted
    | ReturnTypes.DIFFERENCE => List.zipWith vsub prices shifted
    | ReturnTypes.LEVEL => prices
    | ReturnTypes.LEVEL0 => shifted
    | ReturnTypes.LOG => []    -- unreachable: handled above

/-- `to_returns` (`returns.py:27-71`) with `freq=None`, together with
the caller's price buffer after the call.  pandas objects alias numpy
buffers: with `ffill_nans=False` (and no resampling) `prices_at_freq`
returns the caller's object itself, and the LEVEL branch passes it
through unchanged, so the in-place write of `set_zero_first` lands in
the caller's series.  Every other branch allocates a fresh buffer
(`fillna`, `shift`, every numpy ufunc result).  The first component is
the returned series, the second the caller's series after the call. -/
def to_returns_run (logFn : Val → Val) (junk : Val)
    (return_type : ReturnTypes) (is_log_returns : Bool)
    (ffill_nans is_first_zero drop_first : Bool)
    (prices : List Val) : List Val × List Val :=
  let p := prices_at_freq ffill_nans prices
  -- does the branch result alias the caller's buffer?
  let aliased := !ffill_nans &&
    !(return_type = ReturnTypes.LOG || is_log_returns) &&
    return_type = ReturnTypes.LEVEL
  let returns := returnsFormula logFn junk return_type is_log_returns p
  if is_first_zero then
    let returns' := set_zero_first returns
    (returns', if aliased then returns' else prices)
  else if drop_first then
    (drop_first_row returns, prices)
  else
    (returns, prices)

/-- `to_returns` as a value: the series the caller receives. -/
def to_returns (logFn : Val → Val) (junk : Val)
    (return_type : ReturnTypes) (is_log_returns : Bool)
    (ffill_nans is_first_zero drop_first : Bool)
    (prices : List Val) : List Val :=
  (to_returns_run logFn junk return_type is_log_returns
      ffill_nans is_first_zero drop_first prices).1

/-- Cumulative product with `skipna=True`: a NaN cell yields NaN in the
output but does not enter the running product. -/
def cumprodSkipnaGo (acc : Val) : List Val → List Val
  | [] => []
  | x :: xs =>
      if x.isnan then Val.nan :: cumprodSkipnaGo acc xs
      else vmul acc x :: cumprodSkipnaGo (vmul acc x) xs

/-- `Series.cumprod(skipna=True)`. -/
def cumprodSkipna (xs : List Val) : List Val := cumprodSkipnaGo (Val.num 1) xs

/-- Running-sum helper for `cumsum(skipna=True)`. -/
def cumsumSkipnaGo (acc : Val) : List Val → List Val
  | [] => []
  | x :: xs =>
      if x.isnan then Val.nan :: cumsumSkipnaGo acc xs
      else vadd acc x :: cumsumSkipnaGo (vadd acc x) xs

/-- `Series.cumsum(skipna=True)`. -/
def cumsumSkipna (xs : List Val) : List Val := cumsumSkipnaGo (Val.num 0) xs

/-- Modelled from the spec: `dfo.get_first_non_nan_values`
(`qis.utils.df_ops` is not under src/).  Spec 4.4: the forward anchor
rescales by `init/first_value`, the first value being the first
non-missing cell of the reconstructed path (spec 4.2 likewise
substitutes "the first non-missing price found anywhere in the
series"). NaN when every cell is missing. -/
def get_first_non_nan_values (xs : List Val) : Val :=
  (xs.find? (fun v => !v.isnan)).getD Val.nan

/-- Modelled from the spec: `dfo.get_last_non_nan_values`
(`qis.utils.df_ops` is not under src/).  Spec 4.4: the terminal anchor
rescales by `terminal/last_value`, the last value being the last
non-missing cell of the reconstructed path. -/
def get_last_non_nan_values (xs : List Val) : Val :=
  (xs.reverse.find? (fun v => !v.isnan)).getD Val.nan

/-- Modelled from the spec: `dfo.get_first_before_non_nan_index`
(`qis.utils.df_ops` is not under src/).  Per its name, the docstring of
`returns_to_nav` ("init_period of one by default will exclude the first
day of returns") and the round-trip law of spec section 8, it is the
index position one before the first non-NaN cell, clamped at position
zero (the source guards the write with `index >= first_date`); `none`
when every cell is NaN. -/
def get_first_before_non_nan_index (xs : List Val) : Option ℕ :=
  (xs.findIdx? (fun v => !v.isnan)).map (fun p => p - 1)

/-- `to_zero_first_non_nan_returns` (`returns.py:598-623`): with
`init_period=1` the cell at `get_first_before_non_nan_index` is set to
zero; any other non-`None` value is an unsupported no-op (a warning is
emitted, the data passes through unchanged). -/
def to_zero_first_non_nan_returns (init_period : Option ℕ)
    (returns : List Val) : List Val :=
  match init_period with
  | none => returns
  | some k =>
      if k = 1 then
        match get_first_before_non_nan_index returns with
        | some idx => returns.set idx (Val.num 0)
        | none => returns
      else returns

/-- `returns_to_nav` (`returns.py:389-421`) with `freq=None`.  Order of
operations as in the source: optional first-return zeroing, cumulative
product of `1+r` (or cumulative sum plus one in constant-trade-level
mode), then the anchor: the terminal anchor is tested first and the
initial anchor only in the `elif`. -/
def returns_to_nav (init_period : Option ℕ)
    (terminal_value init_value : Option ℚ)
    (constant_trade_level : Bool) (returns : List Val) : List Val :=
  let returns1 :=
    match init_period with
    | some k => to_zero_first_non_nan_returns (some k) returns
    | none => returns
  let strategy_nav :=
    if constant_trade_level then
      (cumsumSkipna returns1).map (fun v => vadd v (Val.num 1))
    else
      cumprodSkipna (returns1.map (fun v => vadd v (Val.num 1)))
  match terminal_value with
  | some t =>
      let lastV := get_last_non_nan_values strategy_nav
      strategy_nav.map (fun v => vmul v (vdiv (Val.num t) lastV))
  | none =>
      match init_value with
      | some i =>
          let firstV := get_first_non_nan_values strategy_nav
          strategy_nav.map (fun v => vmul v (vdiv (Val.num i) firstV))
      | none => strategy_nav

/-- `returns.replace([np.inf, -np.inf], np.nan)`
(`returns.py:580`). -/
def replaceInfWithNan (xs : List Val) : List Val :=
  xs.map (fun v => match v with | Val.inf _ => Val.nan | w => w)

/-- `returns.fillna(0.0)` (`returns.py:581`). -/
def fillnaZero (xs : List Val) : List Val :=
  xs.map (fun v => if v.isnan then Val.num 0 else v)

/-- The cleaned return series of `create_nav_from_returns`
(`returns.py:561-581`): optional zero return prepended at `first_date`
(the prepended stamp is taken to precede the series, so the
deduplication step keeps every cell), then infinities replaced by NaN,
then NaN filled with zero.  This is the series the cumulative product
consumes. -/
def cnfr_cleaned_returns (prepend_first_date : Bool)
    (returns : List Val) : List Val :=
  fillnaZero (replaceInfWithNan
    (if prepend_first_date then Val.num 0 :: returns else returns))

/-- `create_nav_from_returns` (`returns.py:549-595`).  Order of
operations as in the source: clean the returns, cumulative product of
`1+r`, clip at `nav_limit`, then the anchors — here `init_value` is
tested first and `terminal_value` only in the `elif` (the reverse of
`returns_to_nav`).  The terminal branch divides by the last NAV row (as
in the DataFrame path of the source; the Series path would fail on
`.values`). -/
def create_nav_from_returns (prepend_first_date : Bool)
    (init_value terminal_value : Option ℚ) (nav_limit : Option ℚ)
    (returns : List Val) : List Val :=
  let cleaned := cnfr_cleaned_returns prepend_first_date returns
  let nav := cumprodSkipna (cleaned.map (fun v => vadd v (Val.num 1)))
  let nav1 :=
    match nav_limit with
    | some l => nav.map (clipLower l)
    | none => nav
  match init_value with
  | some i => nav1.map (fun v => vmul v (Val.num i))
  | none =>
      match terminal_value with
      | some t =>
          let lastV := nav1.getLast?.getD Val.nan
          nav1.map (fun v => vmul v (vdiv (Val.num t) lastV))
      | none => nav1

/-- One input row of `compute_net_return` after the first date: the
day's gross return, its calendar day number, and whether the date is on
the performance-fee crystallization schedule (the schedule itself comes
from `da.generate_dates_schedule`, an external calendar utility; the
membership flags are the state machine's input). -/
structure NetRow where
  grossReturn : ℚ
  date : ℤ
  isCrys : Bool
deriving DecidableEq, Repr

/-- One row of the `nav_data` frame of `compute_net_return`
(`returns.py:331-354`), plus the row's date. -/
structure FeeState where
  gav : ℚ
  nav : ℚ
  pf : ℚ
  hwm : ℚ
  cpf : ℚ
  date : ℤ
deriving DecidableEq, Repr

/-- First row of `nav_data` (`returns.py:337-339`): `GAV = NAV = HWM =
100`, the fee columns at their zero initialization. -/
def feeInit (d : ℤ) : FeeState :=
  { gav := 100, nav := 100, pf := 0, hwm := 100, cpf := 0, date := d }

/-- Loop body of `compute_net_return` (`returns.py:341-354`), in source
order: management-fee proration, GAV update, accrued performance fee
against the previous HWM, NAV, HWM carried over; on a crystallization
date the fee crystallizes, HWM ratchets to `max(NAV, previous HWM)` and
the crystallized fee is removed from GAV. -/
def feeStep (man_fee perf_fee : ℚ) (s : FeeState) (r : NetRow) : FeeState :=
  let man_fee_dt := man_fee * ((r.date - s.date : ℤ) : ℚ) / 365
  let gav := (1 + r.grossReturn - man_fee_dt) * s.gav
  let pf := perf_fee * max (gav - s.hwm) 0
  let nav := gav - pf
  if r.isCrys then
    let cpf := pf
    { gav := gav - cpf, nav := nav, pf := pf, hwm := max nav s.hwm,
      cpf := cpf, date := r.date }
  else
    { gav := gav, nav := nav, pf := pf, hwm := s.hwm, cpf := 0,
      date := r.date }

/-- The full state sequence of `compute_net_return`: the initial row
followed by one `feeStep` per later date. -/
def feeStates (man_fee perf_fee : ℚ) (d0 : ℤ) (rest : List NetRow) :
    List FeeState :=
  List.scanl (feeStep man_fee perf_fee) (feeInit d0) rest

/-- `compute_net_return` (`returns.py:316-361`): net return
`NAV_t / NAV_{t-1} - 1` with the first cell overwritten by zero.  The
gross return of the first date is never read by the loop, so the input
is the first date plus the later rows. -/
def compute_net_return (man_fee perf_fee : ℚ) (d0 : ℤ)
    (rest : List NetRow) : List ℚ :=
  let sts := feeStates man_fee perf_fee d0 rest
  0 :: List.zipWith (fun prev cur => cur.nav / prev.nav - 1) sts sts.tail

/-- `DataFrame.shift(1)` on rows: the first row becomes all-NaN (same
width), every later row takes the previous row. -/
def shiftRows : List (List Val) → List (List Val)
  | [] => []
  | r :: rs => r.map (fun _ => Val.nan) :: (r :: rs).dropLast

/-- `np.nansum(row)`: the sum of the non-NaN cells, zero when every
cell is NaN (that case is overridden by the caller). -/
def rowNansum (xs : List Val) : Val :=
  (xs.filter (fun v => !v.isnan)).foldl vadd (Val.num 0)

/-- `to_portfolio_returns` (`returns.py:500-517`): lag the weights one
row, multiply elementwise with the returns, row-wise `nansum`, and
overwrite the rows whose products are all NaN with NaN. -/
def to_portfolio_returns (weights returns : List (List Val)) : List Val :=
  let weights_1 := shiftRows weights
  let portfolio_pnl := List.zipWith (fun r w => List.zipWith vmul r w) returns weights_1
  portfolio_pnl.map
    (fun row => if row.all (fun v => v.isnan) then Val.nan else rowNansum row)

/-- Modelled from the spec: `CALENDAR_DAYS_PER_YEAR_SHARPE` from
`qis.utils.dates` (not under src/).  Spec 4.2: elapsed years are
`days/365.25`. -/
def CALENDAR_DAYS_PER_YEAR_SHARPE : ℚ := 365.25

/-- `compute_num_years` (`returns.py:21-24`): calendar days between the
last and first stamp, divided by the days-per-year convention. -/
def compute_num_years (days_per_year : ℚ) (dates : List ℤ) : ℚ :=
  ((dates.getLast?.getD 0 - dates.head?.getD 0 : ℤ) : ℚ) / days_per_year

/-- Modelled from the spec: the per-column variant of
`dfo.get_first_non_nan_values` on a table (`qis.utils.df_ops` is not
under src/) — for column `j`, the first non-missing cell scanning down
the rows, NaN when the column is all missing. -/
def first_non_nan_in_column (rows : List (List Val)) (j : ℕ) : Val :=
  ((rows.filterMap (fun r => r.get? j)).find? (fun v => !v.isnan)).getD Val.nan

/-- Modelled from the spec: `dfo.get_first_non_nan_values` applied to a
table, column by column. -/
def get_first_non_nan_values_df (ncols : ℕ) (rows : List (List Val)) : List Val :=
  (List.range ncols).map (first_non_nan_in_column rows)

/-- `compute_total_return` (`returns.py:86-127`) on a table of `ncols`
columns: the per-column result together with the printed diagnostics.
A single observation yields a row of NaN with no diagnostic; a first
row containing NaN is replaced per column by the first non-NaN cell
with a diagnostic; a non-positive elapsed span yields a row of NaN and
two diagnostics (the frame dump and the inconsistent-dates message) —
the division happens only in the positive-span branch. -/
def compute_total_return_df (ncols : ℕ)
    (dates : List ℤ) (rows : List (List Val)) : List Val × List String :=
  if dates.length = 1 then (List.replicate ncols Val.nan, [])
  else
    let price0raw := rows.head?.getD []
    let price0 :=
      if price0raw.any (fun v => v.isnan) then get_first_non_nan_values_df ncols rows
      else price0raw
    let diags0 : List String :=
      if price0raw.any (fun v => v.isnan) then
        ["detected nan price, using first non nan price"]
      else []
    let price_end := rows.getLast?.getD []
    let num_years := compute_num_years CALENDAR_DAYS_PER_YEAR_SHARPE dates
    if 0 < num_years then
      (List.zipWith (fun e z => vadd (vdiv e z) (Val.num (-1))) price_end price0,
       diags0)
    else
      (List.replicate ncols Val.nan,
       diags0 ++ ["prices dump", "total return has incosistent dates"])

/-- `compute_total_return` (`returns.py:86-127`) on a single series:
the scalar result together with the printed diagnostics. -/
def compute_total_return_series
    (dates : List ℤ) (prices : List Val) : Val × List String :=
  if dates.length = 1 then (Val.nan, [])
  else
    let price0raw := prices.head?.getD Val.nan
    let price0 :=
      if price0raw.isnan then get_first_non_nan_values prices else price0raw
    let diags0 : List String :=
      if price0raw.isnan then
        ["detected nan price, using first non nan price"]
      else []
    let price_end := prices.getLast?.getD Val.nan
    let num_years := compute_num_years CALENDAR_DAYS_PER_YEAR_SHARPE dates
    if 0 < num_years then
      (vadd (vdiv price_end price0) (Val.num (-1)), diags0)
    else
      (Val.nan, diags0 ++ ["prices dump", "total return has incosistent dates"])

/-- A cell holding a finite number (neither NaN nor an infinity). -/
def isFiniteNum : Val → Bool
  | Val.num _ => true
  | _ => false

/-- The relative returns `p_t / p_{t-1} - 1` along a price path with
previous price `prev`: the spec-side description of what `to_returns`
computes on an all-valid positive price series, used to state the
round-trip law. -/
def pairRel : ℚ → List ℚ → List Val
  | _, [] => []
  | prev, x :: xs => Val.num (x / prev - 1) :: pairRel x xs

/-! ### Shared list lemmas -/

theorem scanl_getD_zero {α β : Type} (f : β → α → β) (b : β) (l : List α)
    (w : β) : (List.scanl f b l).getD 0 w = b := by
  cases l <;> simp [List.scanl_cons]

theorem scanl_getD_succ {α β : Type} (f : β → α → β) (b : β) (l : List α)
    (i : ℕ) (hi : i < l.length) (w : β) (a0 : α) :
    (List.scanl f b l).getD (i + 1) w =
      f ((List.scanl f b l).getD i w) (l.getD i a0) := by
  induction l generalizing b i with
  | nil => simp at hi
  | cons x xs ih =>
      cases i with
      | zero =>
          rw [List.scanl_cons]
          simp [scanl_getD_zero]
      | succ j =>
          have hj : j < xs.length := by simpa using hi
          rw [List.scanl_cons]
          simpa [List.getD_cons_succ] using ih (f b x) j hj

theorem tail_getD {α : Type} {l : List α} {i : ℕ} {w : α} :
    l.tail.getD i w = l.getD (i + 1) w := by
  cases l <;> simp [List.getD_cons_succ]

theorem zipWith_getD {α β γ : Type} {f : α → β → γ} {as : List α}
    {bs : List β} {i : ℕ} (ha : i < as.length) (hb : i < bs.length)
    (w1 : α) (w2 : β) (w3 : γ) :
    (List.zipWith f as bs).getD i w3 = f (as.getD i w1) (bs.getD i w2) := by
  rw [List.getD_eq_getElem _ _ (by rw [List.length_zipWith]; omega),
      List.getD_eq_getElem _ _ ha, List.getD_eq_getElem _ _ hb,
      List.getElem_zipWith]

/-! ### Fee accrual engine lemmas -/

theorem feeStates_length (m p : ℚ) (d0 : ℤ) (rest : List NetRow) :
    (feeStates m p d0 rest).length = rest.length + 1 := by
  simp [feeStates, List.length_scanl]

theorem feeStates_getD_zero (m p : ℚ) (d0 : ℤ) (rest : List NetRow)
    (w : FeeState) : (feeStates m p d0 rest).getD 0 w = feeInit d0 :=
  scanl_getD_zero _ _ _ _

theorem feeStates_getD_succ (m p : ℚ) (d0 : ℤ) (rest : List NetRow)
    (i : ℕ) (hi : i < rest.length) (w : FeeState) (r0 : NetRow) :
    (feeStates m p d0 rest).getD (i + 1) w =
      feeStep m p ((feeStates m p d0 rest).getD i w) (rest.getD i r0) :=
  scanl_getD_succ _ _ _ i hi w r0

theorem feeStep_hwm_mono (m p : ℚ) (s : FeeState) (r : NetRow) :
    s.hwm ≤ (feeStep m p s r).hwm := by
  cases h : r.isCrys <;> simp [feeStep, h]

theorem feeStep_nav_le_gav (m p : ℚ) (hp : 0 ≤ p) (s : FeeState)
    (r : NetRow) : (feeStep m p s r).nav ≤ (feeStep m p s r).gav := by
  cases h : r.isCrys <;> simp [feeStep, h]
  exact mul_nonneg hp (le_max_right _ 0)

theorem feeStep_crys_gav_eq_nav (m p : ℚ) (s : FeeState) (r : NetRow)
    (h : r.isCrys = true) :
    (feeStep m p s r).gav = (feeStep m p s r).nav := by
  simp [feeStep, h]

theorem feeStep_crys_gav_le_hwm (m p : ℚ) (s : FeeState) (r : NetRow)
    (h : r.isCrys = true) :
    (feeStep m p s r).gav ≤ (feeStep m p s r).hwm := by
  simp [feeStep, h]

/-- C2: Fee accrual recurrence of `compute_net_return`: the first state
is `GAV = NAV = HWM = 100` with all fees zero; at every later date the
state satisfies `PF_t = perf_fee * max(GAV_{t-1}(1 + r_t - fee_dt) -
HWM_{t-1}, 0)` with `fee_dt = man_fee * days_elapsed / 365`, `NAV_t =
GAV_t - PF_t` (GAV before crystallization), HWM carried over except on
crystallization dates, where `CPF_t = PF_t`, `HWM_t = max(NAV_t,
HWM_{t-1})` and GAV is reduced by `CPF_t`; the returned net return is
`NAV_t / NAV_{t-1} - 1` with the first entry forced to zero. -/
theorem compute_net_return_recurrence (man_fee perf_fee : ℚ) (d0 : ℤ)
    (rest : List NetRow) (i : ℕ) (hi : i < rest.length) :
    (feeStates man_fee perf_fee d0 rest).getD 0 (feeInit d0) =
      { gav := 100, nav := 100, pf := 0, hwm := 100, cpf := 0, date := d0 } ∧
    (compute_net_return man_fee perf_fee d0 rest).getD 0 0 = 0 ∧
    ∀ s s' r,
      s = (feeStates man_fee perf_fee d0 rest).getD i (feeInit d0) →
      s' = (feeStates man_fee perf_fee d0 rest).getD (i + 1) (feeInit d0) →
      r = rest.getD i { grossReturn := 0, date := 0, isCrys := false } →
      s'.pf = perf_fee *
          max (s.gav * (1 + r.grossReturn -
            man_fee * ((r.date - s.date : ℤ) : ℚ) / 365) - s.hwm) 0 ∧
      s'.nav = s.gav * (1 + r.grossReturn -
          man_fee * ((r.date - s.date : ℤ) : ℚ) / 365) - s'.pf ∧
      (r.isCrys = false → s'.hwm = s.hwm ∧ s'.cpf = 0 ∧
        s'.gav = s.gav * (1 + r.grossReturn -
          man_fee * ((r.date - s.date : ℤ) : ℚ) / 365)) ∧
      (r.isCrys = true → s'.cpf = s'.pf ∧ s'.hwm = max s'.nav s.hwm ∧
        s'.gav = s.gav * (1 + r.grossReturn -
          man_fee * ((r.date - s.date : ℤ) : ℚ) / 365) - s'.cpf) ∧
      (compute_net_return man_fee perf_fee d0 rest).getD (i + 1) 0 =
        s'.nav / s.nav - 1 := by
  refine ⟨feeStates_getD_zero _ _ _ _ _, by simp [compute_net_return], ?_⟩
  intro s s' r hs hs' hr
  have hstep := feeStates_getD_succ man_fee perf_fee d0 rest i hi (feeInit d0)
    { grossReturn := 0, date := 0, isCrys := false }
  rw [← hs, ← hr] at hstep
  have hnet : (compute_net_return man_fee perf_fee d0 rest).getD (i + 1) 0 =
      s'.nav / s.nav - 1 := by
    have hlen := feeStates_length man_fee perf_fee d0 rest
    have h1 : i < (feeStates man_fee perf_fee d0 rest).length := by omega
    have h2 : i < (feeStates man_fee perf_fee d0 rest).tail.length := by
      cases hfs : feeStates man_fee perf_fee d0 rest with
      | nil => rw [hfs] at hlen; simp at hlen
      | cons a l =>
          rw [hfs] at hlen
          simp only [List.length_cons] at hlen
          simp only [List.tail_cons]
          omega
    calc (compute_net_return man_fee perf_fee d0 rest).getD (i + 1) 0
        = (List.zipWith (fun prev cur => cur.nav / prev.nav - 1)
            (feeStates man_fee perf_fee d0 rest)
            (feeStates man_fee perf_fee d0 rest).tail).getD i 0 := by
          simp [compute_net_return, List.getD_cons_succ]
      _ = s'.nav / s.nav - 1 := by
          rw [zipWith_getD h1 h2 (feeInit d0) (feeInit d0) 0, tail_getD,
            ← hs, ← hs']
  subst hs'
  rw [hstep] at hnet ⊢
  cases hc : r.isCrys with
  | false =>
      refine ⟨?_, ?_, fun _ => ⟨?_, ?_, ?_⟩,
        fun h => absurd h (by simp [hc]), hnet⟩ <;>
        simp [feeStep, hc] <;> ring_nf <;> try simp
  | true =>
      refine ⟨?_, ?_, fun h => absurd h (by simp [hc]),
        fun _ => ⟨?_, ?_, ?_⟩, hnet⟩ <;>
        simp [feeStep, hc] <;> ring_nf <;> try simp

/-- Witness for C2 at the concrete input of spec section 8: gross
return 10% over one 365-day step with `man_fee = 0`, `perf_fee = 0.2`,
crystallizing at the final date. -/
theorem compute_net_return_recurrence_witness :
    (0 : ℕ) < ([{ grossReturn := 1/10, date := 365, isCrys := true }] :
      List NetRow).length ∧
    (compute_net_return 0 (2/10) 0
        [{ grossReturn := 1/10, date := 365, isCrys := true }]).getD 1 0 =
      ((feeStates 0 (2/10) 0
          [{ grossReturn := 1/10, date := 365, isCrys := true }]).getD 1
            (feeInit 0)).nav /
        ((feeStates 0 (2/10) 0
          [{ grossReturn := 1/10, date := 365, isCrys := true }]).getD 0
            (feeInit 0)).nav - 1 := by
  refine ⟨by decide, ?_⟩
  have h := ((compute_net_return_recurrence 0 (2/10) 0
    [{ grossReturn := 1/10, date := 365, isCrys := true }] 0
    (by decide)).2.2 _ _ _ rfl rfl rfl).2.2.2.2
  exact h

/-- C4: invariants of the fee accrual state sequence: the high-water
mark is monotone non-decreasing, `NAV_t ≤ GAV_t` at every date
(performance fee rate nonnegative), and after a crystallization step
GAV does not exceed HWM. -/
theorem compute_net_return_state_invariants (man_fee perf_fee : ℚ)
    (hpf : 0 ≤ perf_fee) (d0 : ℤ) (rest : List NetRow) :
    (∀ i, i < rest.length →
      ((feeStates man_fee perf_fee d0 rest).getD i (feeInit d0)).hwm ≤
        ((feeStates man_fee perf_fee d0 rest).getD (i + 1) (feeInit d0)).hwm) ∧
    (∀ j, j ≤ rest.length →
      ((feeStates man_fee perf_fee d0 rest).getD j (feeInit d0)).nav ≤
        ((feeStates man_fee perf_fee d0 rest).getD j (feeInit d0)).gav) ∧
    (∀ i, i < rest.length →
      (rest.getD i { grossReturn := 0, date := 0, isCrys := false }).isCrys
        = true →
      ((feeStates man_fee perf_fee d0 rest).getD (i + 1) (feeInit d0)).gav ≤
        ((feeStates man_fee perf_fee d0 rest).getD (i + 1) (feeInit d0)).hwm) := by
  refine ⟨?_, ?_, ?_⟩
  · intro i hi
    rw [feeStates_getD_succ man_fee perf_fee d0 rest i hi (feeInit d0)
      { grossReturn := 0, date := 0, isCrys := false }]
    exact feeStep_hwm_mono _ _ _ _
  · intro j hj
    cases j with
    | zero => rw [feeStates_getD_zero]; simp [feeInit]
    | succ k =>
        have hk : k < rest.length := by omega
        rw [feeStates_getD_succ man_fee perf_fee d0 rest k hk (feeInit d0)
          { grossReturn := 0, date := 0, isCrys := false }]
        exact feeStep_nav_le_gav _ _ hpf _ _
  · intro i hi hc
    rw [feeStates_getD_succ man_fee perf_fee d0 rest i hi (feeInit d0)
      { grossReturn := 0, date := 0, isCrys := false }]
    exact feeStep_crys_gav_le_hwm _ _ _ _ hc

/-- Witness for C4 at a concrete two-step input with a negative return
followed by a crystallizing positive return. -/
theorem compute_net_return_state_invariants_witness :
    (0 : ℚ) ≤ 2/10 ∧
    (1 : ℕ) ≤ ([{ grossReturn := -1/20, date := 30, isCrys := false },
        { grossReturn := 3/10, date := 60, isCrys := true }] :
      List NetRow).length ∧
    ((feeStates (1/100) (2/10) 0
        [{ grossReturn := -1/20, date := 30, isCrys := false },
         { grossReturn := 3/10, date := 60, isCrys := true }]).getD 1
          (feeInit 0)).nav ≤
      ((feeStates (1/100) (2/10) 0
        [{ grossReturn := -1/20, date := 30, isCrys := false },
         { grossReturn := 3/10, date := 60, isCrys := true }]).getD 1
          (feeInit 0)).gav := by
  refine ⟨by norm_num, by decide, ?_⟩
  exact (compute_net_return_state_invariants (1/100) (2/10) (by norm_num) 0
    [{ grossReturn := -1/20, date := 30, isCrys := false },
     { grossReturn := 3/10, date := 60, isCrys := true }]).2.1 1 (by decide)

/-- C10: on every crystallization date the step ends with GAV exactly
equal to NAV (the crystallized fee removed from GAV equals the accrued
performance fee deducted to form NAV), hence GAV does not exceed HWM
there. -/
theorem compute_net_return_crystallization_gav_eq_nav (man_fee perf_fee : ℚ)
    (d0 : ℤ) (rest : List NetRow) (i : ℕ) (hi : i < rest.length)
    (hc : (rest.getD i { grossReturn := 0, date := 0, isCrys := false }).isCrys
      = true) :
    ((feeStates man_fee perf_fee d0 rest).getD (i + 1) (feeInit d0)).gav =
      ((feeStates man_fee perf_fee d0 rest).getD (i + 1) (feeInit d0)).nav ∧
    ((feeStates man_fee perf_fee d0 rest).getD (i + 1) (feeInit d0)).gav ≤
      ((feeStates man_fee perf_fee d0 rest).getD (i + 1) (feeInit d0)).hwm := by
  rw [feeStates_getD_succ man_fee perf_fee d0 rest i hi (feeInit d0)
    { grossReturn := 0, date := 0, isCrys := false }]
  exact ⟨feeStep_crys_gav_eq_nav _ _ _ _ hc, feeStep_crys_gav_le_hwm _ _ _ _ hc⟩

/-- Witness for C10 at a concrete one-step crystallizing input. -/
theorem compute_net_return_crystallization_gav_eq_nav_witness :
    (0 : ℕ) < ([{ grossReturn := 1/10, date := 365, isCrys := true }] :
      List NetRow).length ∧
    (([{ grossReturn := 1/10, date := 365, isCrys := true }] :
        List NetRow).getD 0
      { grossReturn := 0, date := 0, isCrys := false }).isCrys = true ∧
    ((feeStates 0 (2/10) 0
        [{ grossReturn := 1/10, date := 365, isCrys := true }]).getD 1
          (feeInit 0)).gav =
      ((feeStates 0 (2/10) 0
        [{ grossReturn := 1/10, date := 365, isCrys := true }]).getD 1
          (feeInit 0)).nav := by
  refine ⟨by decide, by decide, ?_⟩
  exact (compute_net_return_crystallization_gav_eq_nav 0 (2/10) 0
    [{ grossReturn := 1/10, date := 365, isCrys := true }] 0
    (by decide) (by decide)).1



/-- C5 counterexample: with both anchors supplied
(`init_value = 2`, `terminal_value = 5`) on the single return `+100%`,
`create_nav_from_returns` returns the initial-anchored path `[4]`, not
the terminal-anchored path `[5]`: the terminal anchor is ignored, so the
claim that the terminal anchor takes precedence in both reconstructors
is false. -/
theorem create_nav_from_returns_terminal_ignored_cex :
    create_nav_from_returns false (some 2) (some 5) (some (1/10000000))
        [Val.num 1] = [Val.num 4] ∧
    create_nav_from_returns false (some 2) (some 5) (some (1/10000000))
        [Val.num 1] ≠ [Val.num 5] := by
  have h : create_nav_from_returns false (some 2) (some 5)
      (some (1/10000000)) [Val.num 1] = [Val.num 4] := by
    simp [create_nav_from_returns, cnfr_cleaned_returns, fillnaZero,
      replaceInfWithNan, cumprodSkipna, cumprodSkipnaGo, Val.clipLower,
      Val.vmul, Val.vadd, Val.isnan]
    norm_num
  refine ⟨h, ?_⟩
  rw [h]
  simp

/-- C5 amended: when both a terminal and an initial anchor are
supplied, exactly one is honored in each reconstructor, but the two
functions disagree: `returns_to_nav` honors the terminal anchor (the
initial value is never read), while `create_nav_from_returns` honors
the initial anchor (the terminal value is never read). -/
theorem nav_anchor_precedence (ip : Option ℕ) (t i : ℚ) (ctl : Bool)
    (prepend : Bool) (lim : Option ℚ) (rs : List Val) :
    returns_to_nav ip (some t) (some i) ctl rs =
      returns_to_nav ip (some t) none ctl rs ∧
    create_nav_from_returns prepend (some i) (some t) lim rs =
      create_nav_from_returns prepend (some i) none lim rs :=
  ⟨rfl, rfl⟩

/-- C7 counterexample: `returns_to_nav` performs no infinity
neutralization: an infinite return flows straight into the cumulative
product and the NAV path carries the infinity (had the infinity been
replaced by missing first, the last cell would be NaN, not `+∞`). -/
theorem returns_to_nav_inf_propagates_cex :
    returns_to_nav (some 1) none none false [Val.num 0, Val.inf true] =
      [Val.num 1, Val.inf true] ∧
    returns_to_nav (some 1) none none false [Val.num 0, Val.inf true] ≠
      [Val.num 1, Val.nan] := by
  have h : returns_to_nav (some 1) none none false
      [Val.num 0, Val.inf true] = [Val.num 1, Val.inf true] := by
    simp [returns_to_nav, to_zero_first_non_nan_returns,
      get_first_before_non_nan_index, cumprodSkipna, cumprodSkipnaGo,
      Val.vadd, Val.vmul, Val.isnan, List.findIdx?_cons]
  refine ⟨h, ?_⟩
  rw [h]
  simp

/-- C7 amended: only `create_nav_from_returns` neutralizes infinities:
the cleaned series it feeds to the cumulative product (infinities
replaced by NaN, NaN filled with zero) consists of finite numbers only,
for every input; `returns_to_nav` takes its cumulative product directly
on the given returns. -/
theorem create_nav_from_returns_cleans_inf (prepend : Bool)
    (rs : List Val) :
    (cnfr_cleaned_returns prepend rs).all isFiniteNum = true := by
  have hall : ∀ xs : List Val,
      (fillnaZero (replaceInfWithNan xs)).all isFiniteNum = true := by
    intro xs
    induction xs with
    | nil => rfl
    | cons x l ih =>
        cases x <;> simpa [fillnaZero, replaceInfWithNan, isFiniteNum,
          Val.isnan] using ih
  cases prepend <;>
    simpa [cnfr_cleaned_returns, fillnaZero, replaceInfWithNan,
      isFiniteNum, Val.isnan] using hall rs

/-- C3: the validity mask of `to_returns` tests only the current price
(`returns.py:46-48` duplicates `prices` in both conjuncts instead of
testing `prices.shift(1)`), so a missing/non-positive PRIOR price does
not mask the cell: on prices `[-1, 2]` the relative return at `t = 1`
is computed as `2 / (-1) - 1 = -3`, a present (non-missing) value,
where the claim requires a missing one. -/
theorem to_returns_mask_ignores_prior_price (logFn : Val → Val)
    (junk : Val) :
    to_returns logFn junk ReturnTypes.RELATIVE false true false false
        [Val.num (-1), Val.num 2] =
      [vadd junk (Val.num (-1)), Val.num (-3)] ∧
    (Val.num (-3)).isnan = false := by
  constructor
  · simp [to_returns, to_returns_run, returnsFormula, prices_at_freq,
      ffillList, ffillGo, shift1, Val.isnan, Val.gtZero, Val.vdiv,
      Val.vadd]
    norm_num
  · rfl

/-- C9 counterexample: `to_returns` can mutate its input.  With
`return_type=LEVEL`, `ffill_nans=False` (so no copy is ever taken: with
`freq=None`, `prices_at_freq` hands back the caller's object and the
LEVEL branch passes it through) and `is_first_zero=True`, the in-place
first-row write of `set_zero_first` lands in the caller's series: after
the call the caller's prices `[5, 6]` read `[0, 6]`. -/
theorem to_returns_mutates_input_cex :
    (to_returns_run (fun v => v) Val.nan ReturnTypes.LEVEL false
        false true false [Val.num 5, Val.num 6]).2 = [Val.num 0, Val.num 6] ∧
    [Val.num 0, Val.num 6] ≠ ([Val.num 5, Val.num 6] : List Val) := by
  constructor
  · rfl
  · simp

/-- C9 amended: `to_returns` leaves the caller's price series unchanged
in every configuration except the aliasing one: whenever it is not the
case that `return_type=LEVEL` with `is_log_returns=False`,
`ffill_nans=False` and `is_first_zero=True`, the caller's buffer after
the call equals the original prices. -/
theorem to_returns_preserves_input (logFn : Val → Val) (junk : Val)
    (return_type : ReturnTypes) (is_log_returns : Bool)
    (ffill_nans is_first_zero drop_first : Bool) (prices : List Val)
    (h : ¬ (return_type = ReturnTypes.LEVEL ∧ is_log_returns = false ∧
      ffill_nans = false ∧ is_first_zero = true)) :
    (to_returns_run logFn junk return_type is_log_returns
        ffill_nans is_first_zero drop_first prices).2 = prices := by
  cases return_type <;> cases is_log_returns <;> cases ffill_nans <;>
    cases is_first_zero <;> cases drop_first <;>
    simp_all [to_returns_run]

/-- Witness for C9's amended theorem: the RELATIVE return type with
`is_first_zero=True` writes into a freshly allocated buffer and leaves
the caller's prices intact. -/
theorem to_returns_preserves_input_witness :
    ¬ (ReturnTypes.RELATIVE = ReturnTypes.LEVEL ∧ false = false ∧
        false = false ∧ true = true) ∧
    (to_returns_run (fun v => v) Val.nan ReturnTypes.RELATIVE false
        false true false [Val.num 5, Val.num 6]).2 =
      [Val.num 5, Val.num 6] := by
  refine ⟨by simp, ?_⟩
  exact to_returns_preserves_input (fun v => v) Val.nan
    ReturnTypes.RELATIVE false false true false [Val.num 5, Val.num 6]
    (by simp)

/-- C8: degenerate cases of `compute_total_return`: with exactly one
observation the result is missing for every column (no diagnostic);
with two or more observations but a zero-or-negative elapsed calendar
span the result is missing for every column and the inconsistent-dates
diagnostic is surfaced (printed, not raised) — the division
`price_end / price_0` is only reached in the positive-span branch. -/
theorem compute_total_return_degenerate (ncols : ℕ) (dates : List ℤ)
    (rows : List (List Val)) (prices : List Val) :
    (dates.length = 1 →
      compute_total_return_df ncols dates rows =
        (List.replicate ncols Val.nan, []) ∧
      compute_total_return_series dates prices = (Val.nan, [])) ∧
    (dates.length ≠ 1 →
      dates.getLast?.getD 0 - dates.head?.getD 0 ≤ 0 →
      (compute_total_return_df ncols dates rows).1 =
        List.replicate ncols Val.nan ∧
      "total return has incosistent dates" ∈
        (compute_total_return_df ncols dates rows).2 ∧
      (compute_total_return_series dates prices).1 = Val.nan ∧
      "total return has incosistent dates" ∈
        (compute_total_return_series dates prices).2) := by
  constructor
  · intro h1
    simp [compute_total_return_df, compute_total_return_series, h1]
  · intro h1 h2
    have hcast : ((dates.getLast?.getD 0 - dates.head?.getD 0 : ℤ) : ℚ) ≤ 0 := by
      exact_mod_cast h2
    have hny : ¬ (0 < compute_num_years CALENDAR_DAYS_PER_YEAR_SHARPE dates) := by
      rw [not_lt, compute_num_years]
      exact div_nonpos_iff.mpr (Or.inr ⟨by push_cast; exact_mod_cast hcast,
        by norm_num [CALENDAR_DAYS_PER_YEAR_SHARPE]⟩)
    simp [compute_total_return_df, compute_total_return_series, h1, hny]

/-- Witness for C8 at a single observation and at a repeated date. -/
theorem compute_total_return_degenerate_witness :
    ([5] : List ℤ).length = 1 ∧
    compute_total_return_df 2 [5] [[Val.num 1, Val.num 2]] =
      (List.replicate 2 Val.nan, []) ∧
    ([3, 3] : List ℤ).length ≠ 1 ∧
    ([3, 3] : List ℤ).getLast?.getD 0 - ([3, 3] : List ℤ).head?.getD 0 ≤ 0 ∧
    (compute_total_return_series [3, 3] [Val.num 1, Val.num 2]).1 =
      Val.nan := by
  refine ⟨rfl, ?_, by decide, by decide, ?_⟩
  · exact ((compute_total_return_degenerate 2 [5] [[Val.num 1, Val.num 2]]
      [Val.num 1]).1 rfl).1
  · exact ((compute_total_return_degenerate 2 [3, 3]
      [[Val.num 1, Val.num 2]] [Val.num 1, Val.num 2]).2 (by decide)
      (by decide)).2.2.1

theorem shiftRows_length (w : List (List Val)) :
    (shiftRows w).length = w.length := by
  cases w <;> simp [shiftRows]

theorem vmul_nan_right (v : Val) : vmul v Val.nan = Val.nan := by
  cases v <;> rfl

theorem all_isnan_zip_nanrow (xs ys : List Val) :
    (List.zipWith vmul xs (ys.map (fun _ => Val.nan))).all
      (fun v => v.isnan) = true := by
  induction xs generalizing ys with
  | nil => rfl
  | cons x l ih =>
      cases ys with
      | nil => rfl
      | cons y ys2 =>
          simp only [List.map_cons, List.zipWith_cons_cons, List.all_cons,
            vmul_nan_right]
          simpa [Val.isnan] using ih ys2

theorem map_getD {α β : Type} (f : α → β) (l : List α) (i : ℕ)
    (hi : i < l.length) (w : α) (w2 : β) :
    (l.map f).getD i w2 = f (l.getD i w) := by
  rw [List.getD_eq_getElem _ _ (by simpa using hi),
    List.getD_eq_getElem _ _ hi, List.getElem_map]

theorem shiftRows_getD_succ (w : List (List Val)) (t : ℕ)
    (ht : t + 1 < w.length) (d : List Val) :
    (shiftRows w).getD (t + 1) d = w.getD t d := by
  cases w with
  | nil => simp at ht
  | cons r rs =>
      have hlen : t < (r :: rs).dropLast.length := by
        simp only [List.length_dropLast, List.length_cons] at ht ⊢
        omega
      rw [show shiftRows (r :: rs) =
          (r.map fun _ => Val.nan) :: (r :: rs).dropLast from rfl,
        List.getD_cons_succ,
        List.getD_eq_getElem _ _ hlen,
        List.getD_eq_getElem _ _
          (by simp only [List.length_cons] at ht ⊢; omega),
        List.getElem_dropLast]

/-- C6: `to_portfolio_returns` applies the prior-row weights to the
current-row returns: the first output cell is always missing (the
lagged weights of row 0 are all missing), and at every later row `t`
the output is missing when every product `w_{t-1,j} * r_{t,j}` is
missing, and otherwise the `nansum` of those products (the sum over the
non-missing contributions). -/
theorem to_portfolio_returns_lags_weights (weights returns : List (List Val))
    (hlen : weights.length = returns.length) :
    (to_portfolio_returns weights returns).getD 0 Val.nan = Val.nan ∧
    (∀ t, 0 < t → t < returns.length →
      (to_portfolio_returns weights returns).getD t Val.nan =
        if (List.zipWith vmul (returns.getD t [])
              (weights.getD (t - 1) [])).all (fun v => v.isnan)
        then Val.nan
        else rowNansum (List.zipWith vmul (returns.getD t [])
          (weights.getD (t - 1) []))) := by
  constructor
  · cases returns with
    | nil => rfl
    | cons r0 rrest =>
        cases weights with
        | nil => rfl
        | cons w0 wrest =>
            show (if (List.zipWith vmul r0
                  (w0.map (fun _ => Val.nan))).all (fun v => v.isnan)
                then Val.nan
                else rowNansum (List.zipWith vmul r0
                  (w0.map (fun _ => Val.nan)))) = Val.nan
            rw [all_isnan_zip_nanrow]
            rfl
  · intro t ht htr
    obtain ⟨k, rfl⟩ : ∃ k, t = k + 1 := ⟨t - 1, by omega⟩
    have hw : k + 1 < weights.length := by omega
    have hz : k + 1 < (List.zipWith (fun r w => List.zipWith vmul r w)
        returns (shiftRows weights)).length := by
      rw [List.length_zipWith, shiftRows_length]
      omega
    show (List.map _ (List.zipWith (fun r w => List.zipWith vmul r w)
        returns (shiftRows weights))).getD (k + 1) Val.nan = _
    rw [map_getD _ _ _ hz [] Val.nan,
      zipWith_getD (by omega) (by rw [shiftRows_length]; omega) [] [] [],
      shiftRows_getD_succ weights k hw []]
    simp

/-- Witness for C6 at the concrete scenario of spec section 8: one
instrument returning 5% under weight 1, the other missing. -/
theorem to_portfolio_returns_lags_weights_witness :
    (([[Val.num 1, Val.num 0], [Val.num 1, Val.num 0]] :
        List (List Val)).length =
      ([[Val.num 0, Val.num 0], [Val.num (1/20), Val.nan]] :
        List (List Val)).length) ∧
    (0 : ℕ) < 1 ∧
    (1 : ℕ) < ([[Val.num 0, Val.num 0], [Val.num (1/20), Val.nan]] :
        List (List Val)).length ∧
    (to_portfolio_returns [[Val.num 1, Val.num 0], [Val.num 1, Val.num 0]]
        [[Val.num 0, Val.num 0], [Val.num (1/20), Val.nan]]).getD 1
          Val.nan = Val.num (1/20) := by
  refine ⟨rfl, by norm_num, by norm_num, ?_⟩
  have h := (to_portfolio_returns_lags_weights
      [[Val.num 1, Val.num 0], [Val.num 1, Val.num 0]]
      [[Val.num 0, Val.num 0], [Val.num (1/20), Val.nan]] rfl).2 1
      (by norm_num) (by norm_num)
  rw [h]
  norm_num [rowNansum, Val.vmul, Val.vadd, Val.isnan, List.filter]

theorem map_num_no_nan (l : List ℚ) :
    ∀ v ∈ l.map Val.num, v.isnan = false := by
  intro v hv
  obtain ⟨q, _, rfl⟩ := List.mem_map.mp hv
  rfl

theorem ffillGo_no_nan (last : Option Val) (xs : List Val)
    (h : ∀ v ∈ xs, v.isnan = false) : ffillGo last xs = xs := by
  induction xs generalizing last with
  | nil => rfl
  | cons x l ih =>
      have hx := h x (List.mem_cons_self _ _)
      simp [ffillGo, hx,
        ih (some x) (fun v hv => h v (List.mem_cons_of_mem _ hv))]

theorem zip_rel_pairRel (junk : Val) (a : ℚ) (l : List ℚ) (ha : a ≠ 0)
    (hl : ∀ q ∈ l, 0 < q) :
    List.zipWith
      (fun p s => vadd (if !p.isnan && p.gtZero then vdiv p s else junk)
        (Val.num (-1)))
      (l.map Val.num) ((Val.num a :: l.map Val.num).dropLast) =
      pairRel a l := by
  induction l generalizing a with
  | nil => rfl
  | cons x xs ih =>
      have hx : 0 < x := hl x (List.mem_cons_self _ _)
      rw [List.map_cons,
        show ((Val.num a :: Val.num x :: List.map Val.num xs).dropLast) =
          Val.num a :: (Val.num x :: List.map Val.num xs).dropLast from rfl,
        List.zipWith_cons_cons]
      have hhead : vadd (if !(Val.num x).isnan && (Val.num x).gtZero
          then vdiv (Val.num x) (Val.num a) else junk) (Val.num (-1)) =
          Val.num (x / a - 1) := by
        simp [Val.isnan, Val.gtZero, Val.vdiv, Val.vadd, hx, ha,
          sub_eq_add_neg]
      rw [hhead,
        ih x (ne_of_gt hx) (fun q hq => hl q (List.mem_cons_of_mem _ hq))]
      rfl

theorem returnsFormula_relative_pos (logFn : Val → Val) (junk : Val)
    (a : ℚ) (l : List ℚ) (ha : 0 < a) (hl : ∀ q ∈ l, 0 < q) :
    returnsFormula logFn junk ReturnTypes.RELATIVE false
      ((a :: l).map Val.num) = Val.nan :: pairRel a l := by
  have hz := zip_rel_pairRel junk a l (ne_of_gt ha) hl
  show List.zipWith
      (fun p s => vadd (if !p.isnan && p.gtZero then vdiv p s else junk)
        (Val.num (-1)))
      ((a :: l).map Val.num)
      (Val.nan :: ((a :: l).map Val.num).dropLast) = Val.nan :: pairRel a l
  simp only [List.map_cons]
  rw [List.zipWith_cons_cons]
  have hhead : vadd (if !(Val.num a).isnan && (Val.num a).gtZero
      then vdiv (Val.num a) Val.nan else junk) (Val.num (-1)) = Val.nan := by
    simp [Val.isnan, Val.gtZero, Val.vdiv, Val.vadd, ha]
  rw [hhead, hz]

theorem to_returns_relative_pos (logFn : Val → Val) (junk : Val)
    (a : ℚ) (l : List ℚ) (ha : 0 < a) (hl : ∀ q ∈ l, 0 < q) :
    to_returns logFn junk ReturnTypes.RELATIVE false true false false
      ((a :: l).map Val.num) = Val.nan :: pairRel a l := by
  have hff : ffillList ((a :: l).map Val.num) = (a :: l).map Val.num :=
    ffillGo_no_nan none _ (map_num_no_nan _)
  show returnsFormula logFn junk ReturnTypes.RELATIVE false
      (prices_at_freq true ((a :: l).map Val.num)) = _
  rw [show prices_at_freq true ((a :: l).map Val.num) =
      ffillList ((a :: l).map Val.num) from rfl, hff]
  exact returnsFormula_relative_pos logFn junk a l ha hl

theorem cumprodGo_pairRel (c p : ℚ) (l : List ℚ) (hp : p ≠ 0)
    (hl : ∀ x ∈ l, x ≠ 0) :
    cumprodSkipnaGo (Val.num c)
      ((pairRel p l).map (fun v => vadd v (Val.num 1))) =
      l.map (fun x => Val.num (c * (x / p))) := by
  induction l generalizing c p with
  | nil => rfl
  | cons x xs ih =>
      have hx : x ≠ 0 := hl x (List.mem_cons_self _ _)
      have h1 : (pairRel p (x :: xs)).map (fun v => vadd v (Val.num 1)) =
          Val.num (x / p) ::
            (pairRel x xs).map (fun v => vadd v (Val.num 1)) := by
        rw [show pairRel p (x :: xs) =
          Val.num (x / p - 1) :: pairRel x xs from rfl, List.map_cons]
        congr 1
        show Val.num (x / p - 1 + 1) = Val.num (x / p)
        norm_num
      rw [h1]
      simp only [cumprodSkipnaGo, Val.isnan, Bool.false_eq_true, if_false]
      have h2 : vmul (Val.num c) (Val.num (x / p)) =
          Val.num (c * (x / p)) := rfl
      have hfe : (fun y : ℚ => Val.num (c * (x / p) * (y / x))) =
          fun y : ℚ => Val.num (c * (y / p)) := by
        funext y
        congr 1
        field_simp
        ring
      rw [h2, ih (c * (x / p)) x hx
        (fun q hq => hl q (List.mem_cons_of_mem _ hq)), hfe, List.map_cons]

theorem cumprod_zero_pairRel (a : ℚ) (l : List ℚ) (ha : a ≠ 0)
    (hl : ∀ q ∈ l, q ≠ 0) :
    cumprodSkipna ((Val.num 0 :: pairRel a l).map
      (fun v => vadd v (Val.num 1))) =
      Val.num 1 :: l.map (fun y => Val.num (y / a)) := by
  rw [List.map_cons]
  have e1 : vadd (Val.num 0) (Val.num 1) = Val.num 1 := by
    show Val.num (0 + 1) = Val.num 1
    norm_num
  rw [e1]
  show cumprodSkipnaGo (Val.num 1)
      (Val.num 1 :: (pairRel a l).map (fun v => vadd v (Val.num 1))) = _
  simp only [cumprodSkipnaGo, Val.isnan, Bool.false_eq_true, if_false]
  have e2 : vmul (Val.num 1) (Val.num 1) = Val.num 1 := by
    show Val.num ((1 : ℚ) * 1) = Val.num 1
    norm_num
  have hfe : (fun x : ℚ => Val.num (1 * (x / a))) =
      fun y : ℚ => Val.num (y / a) := by
    funext y
    congr 1
    rw [one_mul]
  rw [e2, cumprodGo_pairRel 1 a l ha hl, hfe]

/-- C1: round-trip law: for a price series of at least two strictly
positive observations with no missing entries, relative returns via
`to_returns` followed by `returns_to_nav` with `init_period = 1` and
the initial anchor set to the first price reproduce the original price
path exactly. -/
theorem to_returns_returns_to_nav_roundtrip (logFn : Val → Val)
    (junk : Val) (ps : List ℚ) (h2 : 2 ≤ ps.length)
    (hpos : ∀ q ∈ ps, 0 < q) :
    returns_to_nav (some 1) none (some ps.headI) false
      (to_returns logFn junk ReturnTypes.RELATIVE false true false false
        (ps.map Val.num)) = ps.map Val.num := by
  obtain ⟨a, x, xs, rfl⟩ : ∃ a x xs, ps = a :: x :: xs := by
    match ps, h2 with
    | a :: x :: xs, _ => exact ⟨a, x, xs, rfl⟩
  have ha : 0 < a := hpos a (List.mem_cons_self _ _)
  have hxs : ∀ q ∈ x :: xs, 0 < q := fun q hq =>
    hpos q (List.mem_cons_of_mem _ hq)
  have hxsne : ∀ q ∈ x :: xs, q ≠ 0 := fun q hq => ne_of_gt (hxs q hq)
  rw [show (a :: x :: xs).headI = a from rfl,
    to_returns_relative_pos logFn junk a (x :: xs) ha hxs]
  have h6 : to_zero_first_non_nan_returns (some 1)
      (Val.nan :: pairRel a (x :: xs)) =
      Val.num 0 :: pairRel a (x :: xs) := rfl
  show (cumprodSkipna ((to_zero_first_non_nan_returns (some 1)
      (Val.nan :: pairRel a (x :: xs))).map
        (fun v => vadd v (Val.num 1)))).map
      (fun v => vmul v (vdiv (Val.num a)
        (get_first_non_nan_values
          (cumprodSkipna ((to_zero_first_non_nan_returns (some 1)
            (Val.nan :: pairRel a (x :: xs))).map
              (fun v => vadd v (Val.num 1))))))) =
    (a :: x :: xs).map Val.num
  rw [h6, cumprod_zero_pairRel a (x :: xs) (ne_of_gt ha) hxsne]
  rw [show get_first_non_nan_values (Val.num 1 ::
      ((x :: xs).map fun y => Val.num (y / a))) = Val.num 1 from rfl]
  have h8 : vdiv (Val.num a) (Val.num 1) = Val.num a := by
    simp [Val.vdiv]
  rw [h8, List.map_cons, List.map_map]
  have h9 : vmul (Val.num 1) (Val.num a) = Val.num a := by
    show Val.num ((1 : ℚ) * a) = Val.num a
    rw [one_mul]
  have hfe : ((fun v => vmul v (Val.num a)) ∘
      (fun y : ℚ => Val.num (y / a))) = fun y : ℚ => Val.num y := by
    funext y
    show Val.num (y / a * a) = Val.num y
    rw [div_mul_cancel₀ _ (ne_of_gt ha)]
  rw [h9, hfe]
  rfl

/-- Witness for C1 at the concrete prices of spec section 8:
`[100, 110, 99]`. -/
theorem to_returns_returns_to_nav_roundtrip_witness :
    2 ≤ ([100, 110, 99] : List ℚ).length ∧
    returns_to_nav (some 1) none (some 100) false
      (to_returns (fun v => v) Val.nan ReturnTypes.RELATIVE false true
        false false (([100, 110, 99] : List ℚ).map Val.num)) =
      ([100, 110, 99] : List ℚ).map Val.num := by
  refine ⟨by norm_num, ?_⟩
  have h := to_returns_returns_to_nav_roundtrip (fun v => v) Val.nan
    [100, 110, 99] (by norm_num)
    (by
      intro q hq
      simp only [List.mem_cons, List.not_mem_nil, or_false] at hq
      rcases hq with rfl | rfl | rfl <;> norm_num)
  exact h
